import Mathlib

/-!
Shallow embedding of the yep models metadata layer: field descriptors and
their sanity checks, the fields collection of a model, the dependency
graph construction of processDepends, the implicit many2many junction
model creation, the compute method signature check, and the record rule
combination of the security layer.

Go pointers to Model values are represented by model names; Go maps are
represented by association lists (lookup finds the first binding, insert
replaces an existing binding); Go panics are represented by Except.error.
-/

namespace Yep

/-- Decidable equality of Except values, used to evaluate the embedded
functions on concrete fixtures. -/
instance exceptDecEq {ε α : Type} [DecidableEq ε] [DecidableEq α] :
    DecidableEq (Except ε α) := fun a b =>
  match a, b with
  | Except.ok x, Except.ok y =>
    if h : x = y then Decidable.isTrue (by rw [h])
    else Decidable.isFalse (fun hc => h (Except.ok.inj hc))
  | Except.error x, Except.error y =>
    if h : x = y then Decidable.isTrue (by rw [h])
    else Decidable.isFalse (fun hc => h (Except.error.inj hc))
  | Except.ok _, Except.error _ => Decidable.isFalse (fun hc => Except.noConfusion hc)
  | Except.error _, Except.ok _ => Decidable.isFalse (fun hc => Except.noConfusion hc)

/-- Association list lookup, mirroring a read from a Go map. -/
def lookupA {α : Type} : List (String × α) → String → Option α
  | [], _ => none
  | (k, v) :: t, key => if k = key then some v else lookupA t key

/-- Association list insertion, mirroring a write to a Go map: an existing
binding for the key is replaced, otherwise the binding is appended. -/
def insertA {α : Type} : List (String × α) → String → α → List (String × α)
  | [], key, v => [(key, v)]
  | (k, w) :: t, key, v =>
    if k = key then (key, v) :: t else (k, w) :: insertA t key v

/-- The values of an association list, mirroring ranging over a Go map. -/
def alistValues {α : Type} (l : List (String × α)) : List α :=
  l.map Prod.snd

/-- Concatenation of the lists produced for each element, in order. -/
def flatMapL {α β : Type} (f : α → List β) : List α → List β
  | [] => []
  | x :: xs => f x ++ flatMapL f xs

/-- The list held by an ok value, and the empty list for an error. -/
def exceptOkD {ε β : Type} : Except ε (List β) → List β
  | Except.ok l => l
  | Except.error _ => []

/-- Sequentially maps a fallible list producer over a list and concatenates
the results, stopping at the first error.  This mirrors a Go loop that
appends results and can panic at each step. -/
def exceptFlatMap {α β ε : Type} (g : α → Except ε (List β)) : List α → Except ε (List β)
  | [] => Except.ok []
  | x :: xs =>
    match g x with
    | Except.error e => Except.error e
    | Except.ok l =>
      match exceptFlatMap g xs with
      | Except.error e => Except.error e
      | Except.ok ls => Except.ok (l ++ ls)

/-- Splits a character list at each occurrence of the separator. -/
def splitSepAux (sep : Char) : List Char → List Char → List String
  | [], acc => [String.mk acc.reverse]
  | c :: cs, acc =>
    if c = sep then String.mk acc.reverse :: splitSepAux sep cs []
    else splitSepAux sep cs (c :: acc)

/-- Splits a string at each occurrence of the separator character,
mirroring strings.Split with a one character separator: the empty string
splits to a list holding one empty string. -/
def splitSep (sep : Char) (s : String) : List String :=
  splitSepAux sep s.data []

/-- Joins strings with the separator between consecutive elements,
mirroring strings.Join. -/
def joinSep (sep : String) : List String → String
  | [] => ""
  | [x] => x
  | x :: xs => x ++ sep ++ joinSep sep xs

/-- Modelled from the spec: strutils.SnakeCaseString is not under src.
Approximated as inserting an underscore before every non initial
uppercase letter and lowercasing the result. -/
def snakeCaseString (s : String) : String :=
  String.mk (go s.data true)
where
  /-- Worker on the character list; the flag marks the first character. -/
  go : List Char → Bool → List Char
  | [], _ => []
  | c :: cs, first =>
    if c.isUpper then
      (if first then [c.toLower] else ['_', c.toLower]) ++ go cs false
    else c :: go cs false

/-- An OnDeleteAction defines what to be done with this record when the
target record is deleted. -/
inductive OnDeleteAction : Type
  | setNull
  | restrict
  | cascade
  deriving DecidableEq

/-- The type of a field.  The fieldtype package is not under src; the
constructors are those named by the code under src (many2one, one2many,
rev2one, one2one, many2many) plus plain value types. -/
inductive FieldType : Type
  | noType
  | boolean
  | char
  | date
  | float
  | integer
  | many2many
  | many2one
  | one2many
  | one2one
  | rev2one
  | selection
  | text
  deriving DecidableEq

/-- Modelled from the spec: the fieldtype predicate IsReverseRelationType
is not under src; per the panic message of checkFieldInfo it holds
exactly for one2many and rev2one fields. -/
def FieldType.IsReverseRelationType : FieldType → Bool
  | FieldType.one2many => true
  | FieldType.rev2one => true
  | _ => false

/-- Modelled from the spec: the fieldtype predicate
IsNonStoredRelationType is not under src; per the comment in isStored
(reverse fields are not stored) and the junction table representation of
many2many relations it holds for one2many, rev2one and many2many. -/
def FieldType.IsNonStoredRelationType : FieldType → Bool
  | FieldType.one2many => true
  | FieldType.rev2one => true
  | FieldType.many2many => true
  | _ => false

/-- Modelled from the spec: the fieldtype predicate IsFKRelationType is
not under src; per the warning message of checkFieldInfo it holds
exactly for many2one and one2one fields. -/
def FieldType.IsFKRelationType : FieldType → Bool
  | FieldType.many2one => true
  | FieldType.one2one => true
  | _ => false

/-- computeData holds data to recompute another field: the model to
recompute (represented by its name), the name of the compute function to
call on it, and the search path used to find the records to update. -/
structure computeData : Type where
  modelInfo : String
  compute : String
  path : String
  deriving DecidableEq

/-- Field holds the meta information about a field.  Pointer members of
the Go struct are represented by names: model is the owning model name,
relatedModel is the name of the resolved related model (empty when not
set, as for a nil pointer).  structFieldIsRecordCollection stands for
the reflection test structField.Type == reflect.TypeOf(RecordCollection).
Members not used by any modelled function (description, help, acl,
selection, groupOperator, size, digits, defaultFunc, translate, m2m
bookkeeping) are omitted. -/
structure Field : Type where
  model : String
  name : String
  json : String
  stored : Bool
  required : Bool
  unique : Bool
  index : Bool
  compute : String
  depends : List String
  relatedModelName : String
  relatedModel : String
  reverseFK : String
  fieldType : FieldType
  relatedPath : String
  dependencies : List computeData
  embed : Bool
  noCopy : Bool
  onDelete : OnDeleteAction
  structFieldIsRecordCollection : Bool
  deriving DecidableEq

/-- isComputedField returns true if this field is computed. -/
def Field.isComputedField (f : Field) : Bool :=
  f.compute != ""

/-- isRelatedField returns true if this field is related. -/
def Field.isRelatedField (f : Field) : Bool :=
  f.relatedPath != ""

/-- isRelationField returns true if this field points to another model. -/
def Field.isRelationField (f : Field) : Bool :=
  f.relatedModelName != ""

/-- isStored returns true if this field is stored in database. -/
def Field.isStored (f : Field) : Bool :=
  if f.fieldType.IsNonStoredRelationType then false
  else if (f.isComputedField || f.isRelatedField) && !f.stored then false
  else true

/-- The embed warning of checkFieldInfo applied as an update: embed is
cleared when set on a field that is not a many2one or one2one field. -/
def embedCheckUpdate (fi : Field) : Field :=
  if fi.embed = true ∧ fi.fieldType.IsFKRelationType = false then
    { fi with embed := false }
  else fi

/-- The stored warning of checkFieldInfo applied as an update: stored is
cleared when set on a field that is not computed. -/
def storedCheckUpdate (fi : Field) : Field :=
  if fi.stored = true ∧ fi.isComputedField = false then
    { fi with stored := false }
  else fi

/-- checkFieldInfo makes sanity checks on the given Field.  It errors
(panics) in case of severe error; the recoverable errors that Go only
logs are applied as updates to the field, which is returned. -/
def checkFieldInfo (fi : Field) : Except String Field :=
  if fi.fieldType.IsReverseRelationType = true ∧ fi.reverseFK = "" then
    Except.error "one2many and rev2one fields must define a ReverseFK parameter"
  else if (embedCheckUpdate fi).structFieldIsRecordCollection = true ∧
      (embedCheckUpdate fi).relatedModel = "" then
    Except.error "Undefined relation model on related field"
  else
    Except.ok (storedCheckUpdate (embedCheckUpdate fi))

/-- FieldsCollection is a collection of Field instances in a model.  The
mutex, the model back pointer and the bootstrapped flag are omitted. -/
structure FieldsCollection : Type where
  registryByName : List (String × Field)
  registryByJSON : List (String × Field)
  computedFields : List Field
  computedStoredFields : List Field
  relatedFields : List Field
  deriving DecidableEq

/-- newFieldsCollection returns a new empty FieldsCollection. -/
def newFieldsCollection : FieldsCollection :=
  { registryByName := []
    registryByJSON := []
    computedFields := []
    computedStoredFields := []
    relatedFields := [] }

/-- get returns the Field of the field with the given name.  The name can
be either the name of the field or its JSON name. -/
def FieldsCollection.get (fc : FieldsCollection) (name : String) : Option Field :=
  match lookupA fc.registryByName name with
  | some fi => some fi
  | none => lookupA fc.registryByJSON name

/-- MustGet returns the Field of the field with the given name or errors
(panics).  The name can be either the name of the field or its JSON
name. -/
def FieldsCollection.MustGet (fc : FieldsCollection) (name : String) : Except String Field :=
  match fc.get name with
  | some fi => Except.ok fi
  | none => Except.error "Unknown field in model"

/-- register adds the given field in the collection after checkFieldInfo.
The returned Field is the checked field actually stored; in Go the field
is updated in place through its pointer. -/
def FieldsCollection.register (fc : FieldsCollection) (fInfo : Field) :
    Except String (FieldsCollection × Field) :=
  match checkFieldInfo fInfo with
  | Except.error e => Except.error e
  | Except.ok fi =>
    Except.ok
      ({ registryByName := insertA fc.registryByName fi.name fi
         registryByJSON := insertA fc.registryByJSON fi.json fi
         computedFields :=
           if fi.isComputedField = true ∧ fi.stored = false then
             fc.computedFields ++ [fi]
           else fc.computedFields
         computedStoredFields :=
           if fi.isComputedField = true ∧ fi.stored = true then
             fc.computedStoredFields ++ [fi]
           else fc.computedStoredFields
         relatedFields :=
           if fi.isRelatedField = true then fc.relatedFields ++ [fi]
           else fc.relatedFields }, fi)

/-- add the given Field to the FieldsCollection, erroring (panicking) if a
field with the same name already exists. -/
def FieldsCollection.add (fc : FieldsCollection) (fInfo : Field) :
    Except String (FieldsCollection × Field) :=
  match lookupA fc.registryByName fInfo.name with
  | some _ => Except.error "Trying to add already existing field"
  | none => fc.register fInfo

/-- The reflection facts about a Go type that the compute method
signature check consults: whether it implements models.FieldMapper and
whether it is the slice type of models.FieldNamer. -/
structure GoType : Type where
  implementsFieldMapper : Bool
  isSliceFieldNamer : Bool
  deriving DecidableEq

/-- A method of a model.  The reflect.Type of the method function is
represented by the number of inputs (the receiver included) and the list
of output types. -/
structure Method : Type where
  name : String
  model : String
  numIn : Nat
  outTypes : List GoType
  deriving DecidableEq

/-- The option flag marking a many2many link model. -/
def Many2ManyLinkModel : Nat := 1

/-- A Model descriptor: name, table name, option flags, its fields and
its methods.  The acl is omitted. -/
structure Model : Type where
  name : String
  tableName : String
  options : Nat
  fields : FieldsCollection
  methods : List Method
  deriving DecidableEq

/-- methodsGet returns the method with the given name, if any. -/
def Model.methodsGet (mi : Model) (name : String) : Option Method :=
  mi.methods.find? (fun m => m.name == name)

/-- The model registry.  The Go registry indexes models both by name and
by table name; both indexes are represented by the one list. -/
structure ModelCollection : Type where
  models : List Model
  deriving DecidableEq

/-- Get returns the model with the given name, if it is registered. -/
def ModelCollection.Get (R : ModelCollection) (name : String) : Option Model :=
  R.models.find? (fun m => m.name == name)

/-- Scans the by name field registry of an existing junction model for
the fields named after the two related models, mirroring the range loop
of createM2MRelModelInfo: the first branch wins for a name equal to
model1, the second for a name equal to model2. -/
def scanM2MFields (model1 model2 : String) :
    List (String × Field) → Option Field × Option Field → Option Field × Option Field
  | [], acc => acc
  | (fName, fi) :: rest, (m1, m2) =>
    if fName = model1 then scanM2MFields model1 model2 rest (some fi, m2)
    else if fName = model2 then scanM2MFields model1 model2 rest (m1, some fi)
    else scanM2MFields model1 model2 rest (m1, m2)

/-- The foreign key field created on a m2m junction model for the
related model of the given name: required, indexed, noCopy, many2one,
onDelete cascade, with a snake cased JSON name suffixed by _id (the
struct field has type int64, so structFieldIsRecordCollection is
false). -/
def m2mFKField (relModelName modelName : String) : Field :=
  { model := relModelName
    name := modelName
    json := snakeCaseString modelName ++ "_id"
    stored := false
    required := true
    unique := false
    index := true
    compute := ""
    depends := []
    relatedModelName := modelName
    relatedModel := ""
    reverseFK := ""
    fieldType := FieldType.many2one
    relatedPath := ""
    dependencies := []
    embed := false
    noCopy := true
    onDelete := OnDeleteAction.cascade
    structFieldIsRecordCollection := false }

/-- createM2MRelModelInfo creates a Model named relModelName (if it does
not exist) for the m2m relation defined between model1 and model2.  It
returns the updated registry, the junction model, the Field of that
model pointing to our model and the Field pointing to the other model
(as options, since the Go pointers can be nil in the existing model
branch). -/
def createM2MRelModelInfo (R : ModelCollection) (relModelName model1 model2 : String) :
    Except String (ModelCollection × Model × Option Field × Option Field) :=
  match R.Get relModelName with
  | some relMI =>
    let scan := scanM2MFields model1 model2 relMI.fields.registryByName (none, none)
    Except.ok (R, relMI, scan.1, scan.2)
  | none =>
    match newFieldsCollection.add (m2mFKField relModelName model1) with
    | Except.error e => Except.error e
    | Except.ok (fc1, our) =>
      match fc1.add (m2mFKField relModelName model2) with
      | Except.error e => Except.error e
      | Except.ok (fc2, their) =>
        let newMI : Model :=
          { name := relModelName
            tableName := snakeCaseString relModelName
            options := Many2ManyLinkModel
            fields := fc2
            methods := [] }
        Except.ok (ModelCollection.mk (R.models ++ [newMI]), newMI, some our, some their)

/-- The junction model createM2MRelModelInfo builds when no model of the
given name exists: its two foreign key fields registered in order. -/
def m2mJunctionModel (rn m1 m2 : String) : Model :=
  { name := rn
    tableName := snakeCaseString rn
    options := Many2ManyLinkModel
    fields :=
      { registryByName := insertA (insertA [] m1 (m2mFKField rn m1)) m2 (m2mFKField rn m2)
        registryByJSON :=
          insertA (insertA [] (m2mFKField rn m1).json (m2mFKField rn m1))
            (m2mFKField rn m2).json (m2mFKField rn m2)
        computedFields := []
        computedStoredFields := []
        relatedFields := [] }
    methods := [] }

/-- The path separator of depends and related paths. -/
def ExprSep : String := "."

/-- The path separator as a character, used for splitting. -/
def ExprSepChar : Char := '.'

/-- Modelled from the spec: jsonizeExpr is not under src.  It converts a
chain of field names starting at the given model into the chain of their
JSON names, following the relation of each non terminal field, and
errors (panics) when a name is unknown or a non terminal field is not a
relation. -/
def jsonizeExpr (R : ModelCollection) : Model → List String → Except String (List String)
  | _, [] => Except.ok []
  | mi, e :: rest =>
    match mi.fields.get e with
    | none => Except.error "Unknown field in model"
    | some fi =>
      if rest.isEmpty then Except.ok [fi.json]
      else
        match R.Get fi.relatedModelName with
        | none => Except.error "Field is not a relation in model"
        | some relM =>
          match jsonizeExpr R relM rest with
          | Except.error e => Except.error e
          | Except.ok l => Except.ok (fi.json :: l)

/-- Modelled from the spec: the traversal worker of getRelatedModelInfo,
which is not under src.  It follows the relation of each field named in
the path, starting at the given model. -/
def followRelPath (R : ModelCollection) : Model → List String → Except String Model
  | mi, [] => Except.ok mi
  | mi, t :: ts =>
    match mi.fields.get t with
    | none => Except.error "Unknown field in model"
    | some fi =>
      match R.Get fi.relatedModelName with
      | none => Except.error "Field is not a relation in model"
      | some relM => followRelPath R relM ts

/-- Modelled from the spec: getRelatedModelInfo is not under src.  It
returns the model reached from the given model by traversing the dot
separated path; the empty path names the model itself. -/
def getRelatedModelInfo (R : ModelCollection) (mi : Model) (path : String) :
    Except String Model :=
  if path = "" then Except.ok mi
  else followRelPath R mi (splitSep ExprSepChar path)

/-- The resolution steps processDepends performs for one depends entry:
jsonize the path, take the last token as the terminal field name and the
joined leading tokens as the search path, locate the terminal model and
the terminal field. -/
def resolveDepends (R : ModelCollection) (mi : Model) (depString : String) :
    Except String (Model × Field × String) :=
  match jsonizeExpr R mi (splitSep ExprSepChar depString) with
  | Except.error e => Except.error e
  | Except.ok tokens =>
    match tokens.getLast? with
    | none => Except.error "Empty depends path"
    | some refName =>
      let path := joinSep ExprSep tokens.dropLast
      match getRelatedModelInfo R mi path with
      | Except.error e => Except.error e
      | Except.ok refM =>
        match refM.fields.MustGet refName with
        | Except.error e => Except.error e
        | Except.ok refF => Except.ok (refM, refF, path)

/-- A back edge produced by processDepends, keyed by the terminal model
name and the terminal field name; the appends performed in Go through
the field pointer are represented by this keyed list of entries. -/
abbrev DepEntry : Type := (String × String) × computeData

/-- The back edge entries contributed by one depends entry of one field:
none for the empty string, one entry otherwise; resolution failure is an
error (a panic in Go). -/
def dependsEntriesFor (R : ModelCollection) (mi : Model) (fInfo : Field)
    (depString : String) : Except String (List DepEntry) :=
  if depString = "" then Except.ok []
  else
    match resolveDepends R mi depString with
    | Except.error e => Except.error e
    | Except.ok (refM, refF, path) =>
      Except.ok [((refM.name, refF.name), computeData.mk mi.name fInfo.compute path)]

/-- processDepends populates the dependencies of each Field from the
depends strings of each Field instance: it walks every model, every
field of its by JSON registry and every depends entry, and records the
back edge for each non empty entry. -/
def processDepends (R : ModelCollection) : Except String (List DepEntry) :=
  exceptFlatMap
    (fun mi =>
      exceptFlatMap
        (fun fInfo => exceptFlatMap (dependsEntriesFor R mi fInfo) fInfo.depends)
        (alistValues mi.fields.registryByJSON))
    R.models

/-- checkMethType checks the signature of one compute method and returns
the panic message of the first failed check, if any. -/
def checkMethType (method : Method) (stored : Bool) : Option String :=
  if method.numIn ≠ 1 then
    some "Compute methods should have no arguments"
  else if method.outTypes.length = 0 then
    some "Compute methods should return a value"
  else if (method.outTypes.headD (GoType.mk false false)).implementsFieldMapper = false then
    some "First return argument must implement models.FieldMapper"
  else if method.outTypes.length = 1 ∧ stored = true then
    some "Compute methods for stored field must return fields to unset as second value"
  else if method.outTypes.length = 2 ∧
      (method.outTypes.getD 1 (GoType.mk false false)).isSliceFieldNamer = false then
    some "Second return value of compute methods must be a FieldNamer slice"
  else if method.outTypes.length > 2 then
    some "Too many return values for compute method"
  else none

/-- Checks the compute methods of the given fields of one model with the
given stored flag, erroring (panicking) on a missing method or a failed
signature check. -/
def checkFieldsMeth (mi : Model) (stored : Bool) : List Field → Except String Unit
  | [] => Except.ok ()
  | fi :: rest =>
    match mi.methodsGet fi.compute with
    | none => Except.error "Unknown method in model"
    | some m =>
      match checkMethType m stored with
      | some msg => Except.error msg
      | none => checkFieldsMeth mi stored rest

/-- Worker of checkComputeMethodsSignature over the model list: for each
model, check the non stored computed fields with stored false and the
stored computed fields with stored true. -/
def checkModelsMeth : List Model → Except String Unit
  | [] => Except.ok ()
  | mi :: rest =>
    match checkFieldsMeth mi false mi.fields.computedFields with
    | Except.error e => Except.error e
    | Except.ok _ =>
      match checkFieldsMeth mi true mi.fields.computedStoredFields with
      | Except.error e => Except.error e
      | Except.ok _ => checkModelsMeth rest

/-- checkComputeMethodsSignature checks all methods used in computed
fields and checks their signature.  It errors (panics) if a signature is
invalid. -/
def checkComputeMethodsSignature (R : ModelCollection) : Except String Unit :=
  checkModelsMeth R.models

/-- Modelled from the spec: the RecordRule struct of the security layer,
which is not under src.  The owning group pointer is represented by the
group name and the filter condition by a predicate on the record. -/
structure RecordRule (α : Type) : Type where
  name : String
  global : Bool
  group : String
  condition : α → Bool
  perms : Nat

/-- Modelled from the spec: a rule governs a permission when the
permission bit is set in its perms bitmask. -/
def ruleApplies {α : Type} (r : RecordRule α) (perm : Nat) : Bool :=
  r.perms &&& perm != 0

/-- Modelled from the spec: one pass over the rule list accumulating,
for the given permission, whether all applicable global rules are
satisfied, whether some applicable group rule exists for the acting
user and whether some such rule is satisfied. -/
def recordAccessibleAux {α : Type} (gs : List String) (perm : Nat) (rec : α) :
    List (RecordRule α) → Bool × Bool × Bool
  | [] => (true, false, false)
  | r :: rest =>
    let acc := recordAccessibleAux gs perm rec rest
    if ruleApplies r perm then
      if r.global then (acc.1 && r.condition rec, acc.2.1, acc.2.2)
      else if r.group ∈ gs then (acc.1, true, acc.2.2 || r.condition rec)
      else acc
    else acc

/-- Modelled from the spec: record rule combination, which is not under
src.  A record is accessible for a permission when every applicable
global rule is satisfied and, unless no applicable group rule exists for
the acting user, some applicable group rule of the user is satisfied. -/
def recordAccessible {α : Type} (rules : List (RecordRule α)) (gs : List String)
    (perm : Nat) (rec : α) : Bool :=
  let acc := recordAccessibleAux gs perm rec rules
  acc.1 && (!acc.2.1 || acc.2.2)

/-- A field value with all members at their Go zero value, used to build
concrete fixtures. -/
def emptyField : Field :=
  { model := ""
    name := ""
    json := ""
    stored := false
    required := false
    unique := false
    index := false
    compute := ""
    depends := []
    relatedModelName := ""
    relatedModel := ""
    reverseFK := ""
    fieldType := FieldType.noType
    relatedPath := ""
    dependencies := []
    embed := false
    noCopy := false
    onDelete := OnDeleteAction.setNull
    structFieldIsRecordCollection := false }

/-- Fixture: the foreign key field Profile of the user model, a many2one
to the profile model. -/
def profileField : Field :=
  { emptyField with
    model := "Test__User"
    name := "Profile"
    json := "profile_id"
    fieldType := FieldType.many2one
    relatedModelName := "Test__Profile"
    relatedModel := "Test__Profile" }

/-- Fixture: the plain Name field of the profile model. -/
def nameField : Field :=
  { emptyField with
    model := "Test__Profile"
    name := "Name"
    json := "name"
    fieldType := FieldType.char }

/-- Fixture: a stored computed field of the user model depending on the
Name field of its profile. -/
def displayNameField : Field :=
  { emptyField with
    model := "Test__User"
    name := "DisplayName"
    json := "display_name"
    stored := true
    compute := "ComputeDisplayName"
    depends := ["Profile.Name"]
    fieldType := FieldType.char }

/-- Fixture: the fields collection of the user model. -/
def fcUser : FieldsCollection :=
  { registryByName := [("Profile", profileField), ("DisplayName", displayNameField)]
    registryByJSON := [("profile_id", profileField), ("display_name", displayNameField)]
    computedFields := []
    computedStoredFields := [displayNameField]
    relatedFields := [] }

/-- Fixture: the fields collection of the profile model. -/
def fcProfile : FieldsCollection :=
  { registryByName := [("Name", nameField)]
    registryByJSON := [("name", nameField)]
    computedFields := []
    computedStoredFields := []
    relatedFields := [] }

/-- Fixture: the user model. -/
def userModel : Model :=
  { name := "Test__User"
    tableName := "test__user"
    options := 0
    fields := fcUser
    methods :=
      [{ name := "ComputeDisplayName"
         model := "Test__User"
         numIn := 1
         outTypes := [GoType.mk true false, GoType.mk false true] }] }

/-- Fixture: the profile model. -/
def profileModel : Model :=
  { name := "Test__Profile"
    tableName := "test__profile"
    options := 0
    fields := fcProfile
    methods := [] }

/-- Fixture: a registry holding the user and profile models. -/
def R0 : ModelCollection :=
  { models := [userModel, profileModel] }

/-- Fixture: the back edge list processDepends produces on R0. -/
def l0val : List DepEntry :=
  [(("Test__Profile", "Name"),
    computeData.mk "Test__User" "ComputeDisplayName" "profile_id")]

/-- Fixture: a one2many field registered without a ReverseFK. -/
def badReverseField : Field :=
  { emptyField with
    model := "Test__User"
    name := "Posts"
    json := "posts_ids"
    fieldType := FieldType.one2many
    relatedModelName := "Test__Post" }

/-- Fixture: a related field registered with the store flag set and no
compute method. -/
def relatedStoredField : Field :=
  { emptyField with
    model := "Test__User"
    name := "PartnerName"
    json := "partner_name"
    stored := true
    relatedPath := "Partner.Name"
    fieldType := FieldType.char }

/-- Fixture: the collection obtained by registering the stored computed
DisplayName field into an empty collection. -/
def fcAfterRegister : FieldsCollection :=
  { registryByName := [("DisplayName", displayNameField)]
    registryByJSON := [("display_name", displayNameField)]
    computedFields := []
    computedStoredFields := [displayNameField]
    relatedFields := [] }

/-- The classification invariant of a FieldsCollection: the two computed
slices hold exactly the computed fields partitioned by their stored
flag, the related slice holds exactly the related fields, with the
exactness directions read over the fields held by the by name registry. -/
def classificationInvariant (fc : FieldsCollection) : Prop :=
  (∀ f ∈ fc.computedStoredFields, f.compute ≠ "" ∧ f.stored = true)
  ∧ (∀ f ∈ fc.computedFields, f.compute ≠ "" ∧ f.stored = false)
  ∧ (∀ f ∈ fc.relatedFields, f.relatedPath ≠ "")
  ∧ (∀ f ∈ alistValues fc.registryByName,
      (f.compute ≠ "" ∧ f.stored = true → f ∈ fc.computedStoredFields)
      ∧ (f.compute ≠ "" ∧ f.stored = false → f ∈ fc.computedFields)
      ∧ (f.relatedPath ≠ "" → f ∈ fc.relatedFields))

/-! Helper lemmas. -/

theorem lookupA_insertA_self {α : Type} (l : List (String × α)) (k : String) (v : α) :
    lookupA (insertA l k v) k = some v := by
  induction l with
  | nil => simp [insertA, lookupA]
  | cons p t ih =>
    obtain ⟨q, w⟩ := p
    by_cases h : q = k
    · simp [insertA, h, lookupA]
    · simp [insertA, h, lookupA, ih]

theorem mem_values_insertA {α : Type} {l : List (String × α)} {k : String} {v x : α}
    (h : x ∈ alistValues (insertA l k v)) : x = v ∨ x ∈ alistValues l := by
  induction l with
  | nil =>
    simp only [insertA, alistValues, List.map_cons, List.map_nil] at h
    exact Or.inl (List.mem_singleton.mp h)
  | cons p t ih =>
    obtain ⟨q, w⟩ := p
    by_cases hk : q = k
    · rw [insertA, if_pos hk] at h
      simp only [alistValues, List.map_cons] at h ⊢
      rcases List.mem_cons.mp h with rfl | h2
      · exact Or.inl rfl
      · exact Or.inr (List.mem_cons_of_mem _ h2)
    · rw [insertA, if_neg hk] at h
      simp only [alistValues, List.map_cons] at h ⊢
      rcases List.mem_cons.mp h with rfl | h2
      · exact Or.inr (List.mem_cons_self _ _)
      · rcases ih h2 with h3 | h3
        · exact Or.inl h3
        · exact Or.inr (List.mem_cons_of_mem _ h3)

theorem mem_flatMapL {α β : Type} {f : α → List β} {x : α} {b : β} {xs : List α}
    (hx : x ∈ xs) (hb : b ∈ f x) : b ∈ flatMapL f xs := by
  induction xs with
  | nil => cases hx
  | cons y ys ih =>
    simp only [flatMapL]
    rcases List.mem_cons.mp hx with rfl | hx2
    · exact List.mem_append.mpr (Or.inl hb)
    · exact List.mem_append.mpr (Or.inr (ih hx2))

theorem flatMapL_congr {α β : Type} {f g : α → List β} :
    ∀ {xs : List α}, (∀ x ∈ xs, f x = g x) → flatMapL f xs = flatMapL g xs := by
  intro xs
  induction xs with
  | nil => intro _; rfl
  | cons y ys ih =>
    intro h
    simp only [flatMapL]
    rw [h y (List.mem_cons_self y ys), ih (fun x hx => h x (List.mem_cons_of_mem y hx))]

theorem exceptFlatMap_ok {α β ε : Type} {g : α → Except ε (List β)} :
    ∀ {xs : List α} {l : List β}, exceptFlatMap g xs = Except.ok l →
      (∀ x ∈ xs, ∃ lx, g x = Except.ok lx) ∧
      l = flatMapL (fun x => exceptOkD (g x)) xs := by
  intro xs
  induction xs with
  | nil =>
    intro l h
    simp only [exceptFlatMap] at h
    injection h with h
    subst h
    exact ⟨by simp, rfl⟩
  | cons x xs ih =>
    intro l h
    simp only [exceptFlatMap] at h
    cases hx : g x with
    | error e => rw [hx] at h; exact Except.noConfusion h
    | ok lx =>
      rw [hx] at h
      cases hxs : exceptFlatMap g xs with
      | error e => rw [hxs] at h; exact Except.noConfusion h
      | ok ls =>
        rw [hxs] at h
        injection h with h
        obtain ⟨h1, h2⟩ := ih hxs
        constructor
        · intro y hy
          rcases List.mem_cons.mp hy with rfl | hy2
          · exact ⟨lx, hx⟩
          · exact h1 y hy2
        · subst h
          have hval : exceptOkD (g x) = lx := by rw [hx]; rfl
          simp only [flatMapL, hval, h2]

theorem mem_ite_append {α : Type} {c : Prop} [Decidable c] {l : List α} {fi g : α}
    (h : g ∈ (if c then l ++ [fi] else l)) : g ∈ l ∨ (c ∧ g = fi) := by
  by_cases hc : c
  · rw [if_pos hc] at h
    rcases List.mem_append.mp h with h2 | h2
    · exact Or.inl h2
    · exact Or.inr ⟨hc, List.mem_singleton.mp h2⟩
  · rw [if_neg hc] at h
    exact Or.inl h

theorem mem_ite_append_of_mem {α : Type} {c : Prop} [Decidable c] {l : List α} {fi g : α}
    (h : g ∈ l) : g ∈ (if c then l ++ [fi] else l) := by
  by_cases hc : c
  · rw [if_pos hc]
    exact List.mem_append.mpr (Or.inl h)
  · rw [if_neg hc]
    exact h

theorem self_mem_ite_append {α : Type} {c : Prop} [Decidable c] {l : List α} {fi : α}
    (hc : c) : fi ∈ (if c then l ++ [fi] else l) := by
  rw [if_pos hc]
  exact List.mem_append.mpr (Or.inr (List.mem_singleton.mpr rfl))

theorem isComputedField_iff (f : Field) : f.isComputedField = true ↔ f.compute ≠ "" := by
  simp [Field.isComputedField]

theorem isRelatedField_iff (f : Field) : f.isRelatedField = true ↔ f.relatedPath ≠ "" := by
  simp [Field.isRelatedField]

theorem embedCheckUpdate_shape (fi : Field) :
    (embedCheckUpdate fi).name = fi.name ∧ (embedCheckUpdate fi).json = fi.json ∧
    (embedCheckUpdate fi).compute = fi.compute ∧ (embedCheckUpdate fi).stored = fi.stored ∧
    (embedCheckUpdate fi).fieldType = fi.fieldType ∧
    (embedCheckUpdate fi).reverseFK = fi.reverseFK ∧
    (embedCheckUpdate fi).relatedPath = fi.relatedPath ∧
    (embedCheckUpdate fi).isComputedField = fi.isComputedField := by
  unfold embedCheckUpdate
  split <;> simp [Field.isComputedField]

theorem storedCheckUpdate_shape (fi : Field) :
    (storedCheckUpdate fi).name = fi.name ∧ (storedCheckUpdate fi).json = fi.json ∧
    (storedCheckUpdate fi).compute = fi.compute ∧
    (storedCheckUpdate fi).fieldType = fi.fieldType ∧
    (storedCheckUpdate fi).reverseFK = fi.reverseFK ∧
    (storedCheckUpdate fi).relatedPath = fi.relatedPath := by
  unfold storedCheckUpdate
  split <;> simp

theorem storedCheckUpdate_stored {fi : Field} (h : (storedCheckUpdate fi).stored = true) :
    fi.stored = true ∧ fi.isComputedField = true := by
  unfold storedCheckUpdate at h
  split at h
  · simp at h
  · rename_i hcond
    refine ⟨h, ?_⟩
    cases hc : fi.isComputedField with
    | true => rfl
    | false => exact absurd ⟨h, hc⟩ hcond

theorem checkFieldInfo_ok {fi f' : Field} (h : checkFieldInfo fi = Except.ok f') :
    f' = storedCheckUpdate (embedCheckUpdate fi) ∧
    ¬(fi.fieldType.IsReverseRelationType = true ∧ fi.reverseFK = "") := by
  unfold checkFieldInfo at h
  split at h
  · exact Except.noConfusion h
  · rename_i hrev
    split at h
    · exact Except.noConfusion h
    · exact ⟨(Except.ok.inj h).symm, hrev⟩

theorem checkMethType_none_iff (m : Method) (stored : Bool) :
    checkMethType m stored = none ↔
      m.numIn = 1 ∧
      ((stored = false ∧ ∃ t1, m.outTypes = [t1] ∧ t1.implementsFieldMapper = true) ∨
       (∃ t1 t2, m.outTypes = [t1, t2] ∧ t1.implementsFieldMapper = true ∧
         t2.isSliceFieldNamer = true)) := by
  unfold checkMethType
  rcases m with ⟨name, model, numIn, outs⟩
  dsimp only
  by_cases hin : numIn = 1
  · subst hin
    match outs, stored with
    | [], b => simp
    | [t1], true =>
      cases ht : t1.implementsFieldMapper <;> simp [ht]
    | [t1], false =>
      cases ht : t1.implementsFieldMapper <;> simp [ht]
    | [t1, t2], b =>
      cases ht : t1.implementsFieldMapper <;>
        cases ht2 : t2.isSliceFieldNamer <;>
          cases b <;> simp [ht, ht2] <;>
            exact ⟨t1, t2, ⟨rfl, rfl⟩, ht, ht2⟩
    | t1 :: t2 :: t3 :: r, b =>
      cases ht : t1.implementsFieldMapper <;>
        cases ht2 : t2.isSliceFieldNamer <;> simp [ht, ht2]
  · simp [hin]

theorem checkFieldsMeth_ok {mi : Model} {stored : Bool} :
    ∀ {fs : List Field}, checkFieldsMeth mi stored fs = Except.ok () →
      ∀ fi ∈ fs, ∃ m, mi.methodsGet fi.compute = some m ∧ checkMethType m stored = none := by
  intro fs
  induction fs with
  | nil => intro _ fi hfi; cases hfi
  | cons g rest ih =>
    intro h fi hfi
    simp only [checkFieldsMeth] at h
    split at h
    · exact Except.noConfusion h
    · rename_i m hm
      split at h
      · exact Except.noConfusion h
      · rename_i hc
        rcases List.mem_cons.mp hfi with rfl | hfi2
        · exact ⟨m, hm, hc⟩
        · exact ih h fi hfi2

theorem checkModelsMeth_ok :
    ∀ {ms : List Model}, checkModelsMeth ms = Except.ok () →
      ∀ mi ∈ ms,
        checkFieldsMeth mi false mi.fields.computedFields = Except.ok () ∧
        checkFieldsMeth mi true mi.fields.computedStoredFields = Except.ok () := by
  intro ms
  induction ms with
  | nil => intro _ mi hmi; cases hmi
  | cons m rest ih =>
    intro h mi hmi
    simp only [checkModelsMeth] at h
    split at h
    · exact Except.noConfusion h
    · rename_i u h1
      split at h
      · exact Except.noConfusion h
      · rename_i u2 h2
        rcases List.mem_cons.mp hmi with rfl | hmi2
        · cases u
          cases u2
          exact ⟨h1, h2⟩
        · exact ih h mi hmi2

theorem lookupA_none_of_not_mem {α : Type} {l : List (String × α)} {k : String}
    (h : k ∉ l.map Prod.fst) : lookupA l k = none := by
  induction l with
  | nil => rfl
  | cons p t ih =>
    obtain ⟨q, w⟩ := p
    simp only [List.map_cons, List.mem_cons] at h
    push_neg at h
    obtain ⟨h1, h2⟩ := h
    simp only [lookupA]
    rw [if_neg (fun he => h1 he.symm)]
    exact ih h2

theorem optionElim_none_some {α : Type} (o : Option α) : o.elim none some = o := by
  cases o <;> rfl

theorem add_eq_of_lookup_none {fc : FieldsCollection} {f : Field}
    (h : lookupA fc.registryByName f.name = none) :
    fc.add f = fc.register f := by
  unfold FieldsCollection.add
  rw [h]

theorem scanM2MFields_nodup {m1 m2 : String} (hne : m1 ≠ m2) :
    ∀ (l : List (String × Field)) (acc1 acc2 : Option Field),
      (l.map Prod.fst).Nodup →
      scanM2MFields m1 m2 l (acc1, acc2) =
        ((lookupA l m1).elim acc1 some, (lookupA l m2).elim acc2 some) := by
  intro l
  induction l with
  | nil =>
    intro acc1 acc2 _
    simp [scanM2MFields, lookupA]
  | cons p t ih =>
    intro acc1 acc2 hnd
    obtain ⟨q, w⟩ := p
    simp only [List.map_cons, List.nodup_cons] at hnd
    obtain ⟨hq, hnd2⟩ := hnd
    by_cases h1 : q = m1
    · subst h1
      simp only [scanM2MFields, if_pos rfl]
      rw [ih (some w) acc2 hnd2]
      have hl1 : lookupA t q = none := lookupA_none_of_not_mem hq
      simp [lookupA, hl1, hne]
    · by_cases h2 : q = m2
      · subst h2
        simp only [scanM2MFields, if_neg h1, if_pos rfl]
        rw [ih acc1 (some w) hnd2]
        have hl2 : lookupA t q = none := lookupA_none_of_not_mem hq
        simp [lookupA, hl2, h1]
      · simp only [scanM2MFields, if_neg h1, if_neg h2]
        rw [ih acc1 acc2 hnd2]
        simp only [lookupA, if_neg h1, if_neg h2]

theorem recordAccessibleAux_spec {α : Type} (gs : List String) (perm : Nat) (rec : α) :
    ∀ rules : List (RecordRule α),
      ((recordAccessibleAux gs perm rec rules).1 = true ↔
        ∀ r ∈ rules, ruleApplies r perm = true → r.global = true → r.condition rec = true)
      ∧ ((recordAccessibleAux gs perm rec rules).2.1 = true ↔
        ∃ r ∈ rules, ruleApplies r perm = true ∧ r.global = false ∧ r.group ∈ gs)
      ∧ ((recordAccessibleAux gs perm rec rules).2.2 = true ↔
        ∃ r ∈ rules, ruleApplies r perm = true ∧ r.global = false ∧ r.group ∈ gs ∧
          r.condition rec = true) := by
  intro rules
  induction rules with
  | nil => simp [recordAccessibleAux]
  | cons r rest ih =>
    obtain ⟨ih1, ih2, ih3⟩ := ih
    by_cases hap : ruleApplies r perm = true
    · by_cases hg : r.global = true
      · simp only [recordAccessibleAux, hap, hg, if_true]
        refine ⟨?_, ?_, ?_⟩
        · simp only [Bool.and_eq_true, List.mem_cons]
          constructor
          · rintro ⟨ha, hc⟩
            rintro s (rfl | hs)
            · intro _ _; exact hc
            · exact ih1.mp ha s hs
          · intro hall
            exact ⟨ih1.mpr (fun s hs => hall s (Or.inr hs)),
              hall r (Or.inl rfl) hap hg⟩
        · rw [ih2]
          simp [hg, hap]
        · rw [ih3]
          simp [hg, hap]
      · have hg2 : r.global = false := by
          cases hgb : r.global
          · rfl
          · exact absurd hgb hg
        by_cases hmem : r.group ∈ gs
        · simp only [recordAccessibleAux, hap, hg2, if_true, Bool.false_eq_true,
            if_false, hmem]
          refine ⟨?_, ?_, ?_⟩
          · rw [ih1]
            simp only [List.mem_cons]
            constructor
            · intro hall
              rintro s (rfl | hs)
              · intro _ hsg
                rw [hsg] at hg2
                exact Bool.noConfusion hg2
              · exact hall s hs
            · intro hall s hs
              exact hall s (Or.inr hs)
          · simp [hap, hg2, hmem]
          · simp only [Bool.or_eq_true, List.mem_cons]
            constructor
            · rintro (hrest | hcond)
              · obtain ⟨s, hs, hprop⟩ := ih3.mp hrest
                exact ⟨s, Or.inr hs, hprop⟩
              · exact ⟨r, Or.inl rfl, hap, hg2, hmem, hcond⟩
            · rintro ⟨s, (rfl | hs), hprop⟩
              · exact Or.inr hprop.2.2.2
              · exact Or.inl (ih3.mpr ⟨s, hs, hprop⟩)
        · simp only [recordAccessibleAux, hap, hg2, Bool.false_eq_true, if_false,
            if_true, hmem]
          refine ⟨?_, ?_, ?_⟩
          · rw [ih1]
            simp only [List.mem_cons]
            constructor
            · intro hall
              rintro s (rfl | hs)
              · intro _ hsg
                rw [hsg] at hg2
                exact Bool.noConfusion hg2
              · exact hall s hs
            · intro hall s hs
              exact hall s (Or.inr hs)
          · rw [ih2]
            simp only [List.mem_cons]
            constructor
            · rintro ⟨s, hs, hprop⟩
              exact ⟨s, Or.inr hs, hprop⟩
            · rintro ⟨s, (rfl | hs), hprop⟩
              · exact absurd hprop.2.2 hmem
              · exact ⟨s, hs, hprop⟩
          · rw [ih3]
            simp only [List.mem_cons]
            constructor
            · rintro ⟨s, hs, hprop⟩
              exact ⟨s, Or.inr hs, hprop⟩
            · rintro ⟨s, (rfl | hs), hprop⟩
              · exact absurd hprop.2.2.1 hmem
              · exact ⟨s, hs, hprop⟩
    · have hap2 : ruleApplies r perm = false := by
        cases hab : ruleApplies r perm
        · rfl
        · exact absurd hab hap
      simp only [recordAccessibleAux, hap2, Bool.false_eq_true, if_false]
      refine ⟨?_, ?_, ?_⟩
      · rw [ih1]
        simp only [List.mem_cons]
        constructor
        · intro hall
          rintro s (rfl | hs)
          · intro hsap
            rw [hsap] at hap2
            exact Bool.noConfusion hap2
          · exact hall s hs
        · intro hall s hs
          exact hall s (Or.inr hs)
      · rw [ih2]
        simp only [List.mem_cons]
        constructor
        · rintro ⟨s, hs, hprop⟩
          exact ⟨s, Or.inr hs, hprop⟩
        · rintro ⟨s, (rfl | hs), hprop⟩
          · rw [hprop.1] at hap2
            exact Bool.noConfusion hap2
          · exact ⟨s, hs, hprop⟩
      · rw [ih3]
        simp only [List.mem_cons]
        constructor
        · rintro ⟨s, hs, hprop⟩
          exact ⟨s, Or.inr hs, hprop⟩
        · rintro ⟨s, (rfl | hs), hprop⟩
          · rw [hprop.1] at hap2
            exact Bool.noConfusion hap2
          · exact ⟨s, hs, hprop⟩

/-! Claim theorems. -/

/-- C3: evaluating checkFieldInfo at a related field registered with the
store flag set: although the field is related (non empty relatedPath),
has no compute method and was registered with stored set, validation
resets its stored flag to false and isStored reports false, so the
field does not remain a stored field. -/
theorem checkFieldInfo_resets_related_stored :
    relatedStoredField.relatedPath ≠ "" ∧ relatedStoredField.compute = "" ∧
    relatedStoredField.stored = true ∧
    checkFieldInfo relatedStoredField =
      Except.ok { relatedStoredField with stored := false } ∧
    ({ relatedStoredField with stored := false } : Field).isStored = false := by
  refine ⟨by decide, by decide, by decide, by decide, by decide⟩

/-- C5: a field whose type is a reverse relation type (one2many or
rev2one) registered with an empty reverseFK makes field validation fail
(panic), and every field that passes validation satisfies: if its type
is a reverse relation type then its reverseFK is non empty. -/
theorem checkFieldInfo_reverseFK (f : Field) :
    (f.fieldType.IsReverseRelationType = true ∧ f.reverseFK = "" →
      ∃ e, checkFieldInfo f = Except.error e)
    ∧ (∀ f', checkFieldInfo f = Except.ok f' →
        f'.fieldType.IsReverseRelationType = true → f'.reverseFK ≠ "") := by
  constructor
  · intro hcond
    exact ⟨_, by unfold checkFieldInfo; rw [if_pos hcond]⟩
  · intro f' h hrev hfk
    obtain ⟨hf', hguard⟩ := checkFieldInfo_ok h
    obtain ⟨_, _, _, hty, hfk2, _⟩ := storedCheckUpdate_shape (embedCheckUpdate f)
    obtain ⟨_, _, _, _, hty2, hfk3, _, _⟩ := embedCheckUpdate_shape f
    apply hguard
    constructor
    · rw [← hty2, ← hty, ← hf']
      exact hrev
    · rw [← hfk3, ← hfk2, ← hf']
      exact hfk

/-- C5 witness: validation of a concrete one2many field with an empty
reverseFK fails. -/
theorem checkFieldInfo_reverseFK_witness :
    ∃ e, checkFieldInfo badReverseField = Except.error e :=
  (checkFieldInfo_reverseFK badReverseField).1 (by decide)

/-- C7: after field validation succeeds, every field whose stored flag
is true has a non empty compute method name. -/
theorem checkFieldInfo_stored_computed (f f' : Field)
    (h : checkFieldInfo f = Except.ok f') (hs : f'.stored = true) :
    f'.compute ≠ "" := by
  obtain ⟨hf', _⟩ := checkFieldInfo_ok h
  subst hf'
  obtain ⟨_, hcomp⟩ := storedCheckUpdate_stored hs
  obtain ⟨_, _, hc, _, _, _⟩ := storedCheckUpdate_shape (embedCheckUpdate f)
  rw [hc]
  obtain ⟨_, _, hc2, _, _, _, _, hcf⟩ := embedCheckUpdate_shape f
  rw [hc2]
  rw [hcf] at hcomp
  exact (isComputedField_iff f).mp hcomp

/-- C7 witness: a concrete stored computed field passes validation with
its stored flag intact; its compute name is non empty. -/
theorem checkFieldInfo_stored_computed_witness : displayNameField.compute ≠ "" :=
  checkFieldInfo_stored_computed displayNameField displayNameField (by decide) (by decide)

/-- C8: the lookup used by MustGet finds a field when the name is bound
in the by name registry (which takes precedence) or, failing that, in
the by JSON registry; MustGet errors exactly when the name is bound in
neither registry; and an ok result is always a field bound under the
looked up name. -/
theorem MustGet_spec (fc : FieldsCollection) (n : String) :
    (∀ f, lookupA fc.registryByName n = some f → fc.MustGet n = Except.ok f)
    ∧ (lookupA fc.registryByName n = none →
        ∀ f, lookupA fc.registryByJSON n = some f → fc.MustGet n = Except.ok f)
    ∧ ((∃ e, fc.MustGet n = Except.error e) ↔
        (lookupA fc.registryByName n = none ∧ lookupA fc.registryByJSON n = none))
    ∧ (∀ f, fc.MustGet n = Except.ok f →
        lookupA fc.registryByName n = some f ∨ lookupA fc.registryByJSON n = some f) := by
  unfold FieldsCollection.MustGet FieldsCollection.get
  cases hN : lookupA fc.registryByName n with
  | some f0 => simp
  | none =>
    cases hJ : lookupA fc.registryByJSON n with
    | some f0 => simp
    | none => simp

/-- C8 witness: looking up the Profile field of the user collection by
its Go name succeeds. -/
theorem MustGet_spec_witness : fcUser.MustGet "Profile" = Except.ok profileField :=
  (MustGet_spec fcUser "Profile").1 profileField (by decide)

/-- C9: add errors (panics) when the name of the field is already bound
in the by name registry, producing no updated collection; on a fresh
name whose field passes validation, add registers the validated field
under both the Go name and the JSON name of the field. -/
theorem add_spec (fc : FieldsCollection) (f : Field) :
    ((∃ g, lookupA fc.registryByName f.name = some g) →
      ∃ e, fc.add f = Except.error e)
    ∧ (lookupA fc.registryByName f.name = none →
        ∀ f', checkFieldInfo f = Except.ok f' →
          ∃ fc', fc.add f = Except.ok (fc', f') ∧
            lookupA fc'.registryByName f.name = some f' ∧
            lookupA fc'.registryByJSON f.json = some f') := by
  constructor
  · rintro ⟨g, hg⟩
    exact ⟨_, by unfold FieldsCollection.add; rw [hg]⟩
  · intro hnone f' hchk
    have hname : f'.name = f.name := by
      obtain ⟨hf', _⟩ := checkFieldInfo_ok hchk
      obtain ⟨h1, _⟩ := storedCheckUpdate_shape (embedCheckUpdate f)
      obtain ⟨h2, _⟩ := embedCheckUpdate_shape f
      rw [hf', h1, h2]
    have hjson : f'.json = f.json := by
      obtain ⟨hf', _⟩ := checkFieldInfo_ok hchk
      obtain ⟨_, h1, _⟩ := storedCheckUpdate_shape (embedCheckUpdate f)
      obtain ⟨_, h2, _⟩ := embedCheckUpdate_shape f
      rw [hf', h1, h2]
    refine ⟨{ registryByName := insertA fc.registryByName f'.name f'
              registryByJSON := insertA fc.registryByJSON f'.json f'
              computedFields :=
                if f'.isComputedField = true ∧ f'.stored = false then
                  fc.computedFields ++ [f']
                else fc.computedFields
              computedStoredFields :=
                if f'.isComputedField = true ∧ f'.stored = true then
                  fc.computedStoredFields ++ [f']
                else fc.computedStoredFields
              relatedFields :=
                if f'.isRelatedField = true then fc.relatedFields ++ [f']
                else fc.relatedFields }, ?_, ?_, ?_⟩
    · unfold FieldsCollection.add
      rw [hnone]
      unfold FieldsCollection.register
      rw [hchk]
    · rw [← hname]
      exact lookupA_insertA_self _ _ _
    · rw [← hjson]
      exact lookupA_insertA_self _ _ _

/-- C10: register preserves the classification invariant: after a
register call the computed stored slice, the computed non stored slice
and the related slice still hold exactly the fields with the
corresponding flags, and no field lies in both computed slices. -/
theorem register_preserves_classification (fc : FieldsCollection) (f : Field)
    (fc' : FieldsCollection) (f' : Field)
    (hinv : classificationInvariant fc)
    (h : fc.register f = Except.ok (fc', f')) :
    classificationInvariant fc' ∧
    ∀ g ∈ fc'.computedFields, g ∉ fc'.computedStoredFields := by
  obtain ⟨inv1, inv2, inv3, inv4⟩ := hinv
  unfold FieldsCollection.register at h
  cases hchk : checkFieldInfo f with
  | error e => rw [hchk] at h; exact Except.noConfusion h
  | ok fi =>
    rw [hchk] at h
    injection h with h
    rw [Prod.mk.injEq] at h
    obtain ⟨hfc, hfi⟩ := h
    subst hfc
    have hinv' : classificationInvariant
        { registryByName := insertA fc.registryByName fi.name fi
          registryByJSON := insertA fc.registryByJSON fi.json fi
          computedFields :=
            if fi.isComputedField = true ∧ fi.stored = false then
              fc.computedFields ++ [fi]
            else fc.computedFields
          computedStoredFields :=
            if fi.isComputedField = true ∧ fi.stored = true then
              fc.computedStoredFields ++ [fi]
            else fc.computedStoredFields
          relatedFields :=
            if fi.isRelatedField = true then fc.relatedFields ++ [fi]
            else fc.relatedFields } := by
      refine ⟨?_, ?_, ?_, ?_⟩
      · intro g hg
        rcases mem_ite_append hg with h2 | ⟨hc, rfl⟩
        · exact inv1 g h2
        · exact ⟨(isComputedField_iff g).mp hc.1, hc.2⟩
      · intro g hg
        rcases mem_ite_append hg with h2 | ⟨hc, rfl⟩
        · exact inv2 g h2
        · exact ⟨(isComputedField_iff g).mp hc.1, hc.2⟩
      · intro g hg
        rcases mem_ite_append hg with h2 | ⟨hc, rfl⟩
        · exact inv3 g h2
        · exact (isRelatedField_iff g).mp hc
      · intro g hg
        rcases mem_values_insertA hg with rfl | hg2
        · refine ⟨?_, ?_, ?_⟩
          · rintro ⟨hcomp, hstored⟩
            exact self_mem_ite_append ⟨(isComputedField_iff g).mpr hcomp, hstored⟩
          · rintro ⟨hcomp, hstored⟩
            exact self_mem_ite_append ⟨(isComputedField_iff g).mpr hcomp, hstored⟩
          · intro hrel
            exact self_mem_ite_append ((isRelatedField_iff g).mpr hrel)
        · obtain ⟨o1, o2, o3⟩ := inv4 g hg2
          exact ⟨fun hx => mem_ite_append_of_mem (o1 hx),
            fun hx => mem_ite_append_of_mem (o2 hx),
            fun hx => mem_ite_append_of_mem (o3 hx)⟩
    refine ⟨hinv', ?_⟩
    intro g hg hg2
    obtain ⟨i1, i2, _, _⟩ := hinv'
    obtain ⟨_, hst⟩ := i1 g hg2
    obtain ⟨_, hst2⟩ := i2 g hg
    rw [hst2] at hst
    exact Bool.noConfusion hst

/-- C10 witness: registering the stored computed DisplayName field into
an empty collection preserves the classification invariant. -/
theorem register_preserves_classification_witness :
    classificationInvariant fcAfterRegister ∧
    ∀ g ∈ fcAfterRegister.computedFields, g ∉ fcAfterRegister.computedStoredFields :=
  register_preserves_classification newFieldsCollection displayNameField
    fcAfterRegister displayNameField
    (by refine ⟨?_, ?_, ?_, ?_⟩ <;> simp [newFieldsCollection, alistValues])
    (by decide)

/-- C1 (amended): after processDepends succeeds on a registry, every non
empty depends entry of every field of every model resolves, and the
terminal field of the entry carries a back edge whose model is the
declaring model, whose compute is the compute method of the declaring
field and whose path is the jsonized leading segments of the entry;
moreover the produced back edge list is exactly the concatenation of
the one back edge contributed by each such depends entry, so a field
that is the terminal of several paths accumulates one back edge per
path. -/
theorem processDepends_backEdges (R : ModelCollection) (l : List DepEntry)
    (h : processDepends R = Except.ok l) :
    l = flatMapL (fun mi =>
          flatMapL (fun fi =>
              flatMapL (fun dep => exceptOkD (dependsEntriesFor R mi fi dep)) fi.depends)
            (alistValues mi.fields.registryByJSON))
          R.models
    ∧ ∀ mi ∈ R.models, ∀ fi ∈ alistValues mi.fields.registryByJSON,
        ∀ dep ∈ fi.depends, dep ≠ "" →
          ∃ refM refF path, resolveDepends R mi dep = Except.ok (refM, refF, path) ∧
            ((refM.name, refF.name), computeData.mk mi.name fi.compute path) ∈ l := by
  unfold processDepends at h
  obtain ⟨hallM, hEq⟩ := exceptFlatMap_ok h
  constructor
  · rw [hEq]
    apply flatMapL_congr
    intro mi hmi
    obtain ⟨lm, hlm⟩ := hallM mi hmi
    obtain ⟨hallF, hEqF⟩ := exceptFlatMap_ok hlm
    rw [hlm]
    show lm = _
    rw [hEqF]
    apply flatMapL_congr
    intro fi hfi
    obtain ⟨lf, hlf⟩ := hallF fi hfi
    rw [hlf]
    show lf = _
    obtain ⟨_, hEqD⟩ := exceptFlatMap_ok hlf
    exact hEqD
  · intro mi hmi fi hfi dep hdep hne
    obtain ⟨lm, hlm⟩ := hallM mi hmi
    obtain ⟨hallF, hEqF⟩ := exceptFlatMap_ok hlm
    obtain ⟨lf, hlf⟩ := hallF fi hfi
    obtain ⟨hallD, hEqD⟩ := exceptFlatMap_ok hlf
    obtain ⟨ld, hld⟩ := hallD dep hdep
    unfold dependsEntriesFor at hld
    rw [if_neg hne] at hld
    cases hres : resolveDepends R mi dep with
    | error e => rw [hres] at hld; exact Except.noConfusion hld
    | ok trip =>
      obtain ⟨refM, refF, path⟩ := trip
      refine ⟨refM, refF, path, rfl, ?_⟩
      rw [hEq]
      apply mem_flatMapL hmi
      rw [hlm]
      show ((refM.name, refF.name), computeData.mk mi.name fi.compute path) ∈ lm
      rw [hEqF]
      apply mem_flatMapL hfi
      rw [hlf]
      show ((refM.name, refF.name), computeData.mk mi.name fi.compute path) ∈ lf
      rw [hEqD]
      apply mem_flatMapL hdep
      have hone : exceptOkD (dependsEntriesFor R mi fi dep) =
          [((refM.name, refF.name), computeData.mk mi.name fi.compute path)] := by
        unfold dependsEntriesFor
        rw [if_neg hne, hres]
        rfl
      rw [hone]
      exact List.mem_singleton.mpr rfl

/-- C1 counterexample: on the registry R0 the depends path Profile.Name
of the stored computed field DisplayName produces a back edge whose
path is the JSON name profile_id of the leading segment; no back edge
carrying the literal leading segment Profile is recorded, so the path
of the back edge is not the literal leading segments of the depends
entry. -/
theorem processDepends_path_not_literal :
    processDepends R0 = Except.ok l0val ∧
    (∀ e ∈ l0val, e.2.path ≠ "Profile") ∧
    (("Test__Profile", "Name"),
      computeData.mk "Test__User" "ComputeDisplayName" "profile_id") ∈ l0val := by
  refine ⟨by decide, by decide, by decide⟩

/-- C1 witness: the theorem applied to the fixture registry yields the
back edge of the Profile.Name dependency on the terminal Name field. -/
theorem processDepends_backEdges_witness :
    ∃ refM refF path,
      resolveDepends R0 userModel "Profile.Name" = Except.ok (refM, refF, path) ∧
      ((refM.name, refF.name),
        computeData.mk userModel.name displayNameField.compute path) ∈ l0val :=
  (processDepends_backEdges R0 l0val (by decide)).2 userModel (by decide)
    displayNameField (by decide) "Profile.Name" (by decide) (by decide)

/-- C2: a record is accessible under a permission for an acting user if
and only if it satisfies the condition of every global rule governing
that permission and, in addition, either no group rule governing that
permission applies to one of the groups of the acting user, or the
record satisfies the condition of at least one group rule applying to
one of those groups. -/
theorem recordRuleCombination {α : Type} (rules : List (RecordRule α))
    (gs : List String) (perm : Nat) (rec : α) :
    recordAccessible rules gs perm rec = true ↔
      ((∀ r ∈ rules, ruleApplies r perm = true → r.global = true →
          r.condition rec = true)
       ∧ ((¬ ∃ r ∈ rules, ruleApplies r perm = true ∧ r.global = false ∧ r.group ∈ gs)
          ∨ ∃ r ∈ rules, ruleApplies r perm = true ∧ r.global = false ∧ r.group ∈ gs ∧
              r.condition rec = true)) := by
  obtain ⟨h1, h2, h3⟩ := recordAccessibleAux_spec gs perm rec rules
  unfold recordAccessible
  rw [Bool.and_eq_true, Bool.or_eq_true, Bool.not_eq_true', h1, ← h3]
  have hnone : (recordAccessibleAux gs perm rec rules).2.1 = false ↔
      ¬ ∃ r ∈ rules, ruleApplies r perm = true ∧ r.global = false ∧ r.group ∈ gs := by
    rw [← h2]
    constructor
    · intro hf ht
      rw [hf] at ht
      exact Bool.noConfusion ht
    · intro hn
      cases hb : (recordAccessibleAux gs perm rec rules).2.1
      · rfl
      · exact absurd hb hn
  rw [hnone]

/-- C6: for a m2m relation between model1 and model2 with junction name
relModelName: when no model of that name exists, createM2MRelModelInfo
registers a new junction model of that name, marked as a link model and
carrying exactly two required, indexed, noCopy many2one foreign key
fields named after the two models with onDelete cascade, and returns
that model and those two fields; when a model of that name already
exists, the existing model is returned together with its fields named
model1 and model2 and the registry is unchanged. -/
theorem createM2M_spec (R : ModelCollection) (rn m1 m2 : String) (hne : m1 ≠ m2) :
    (R.Get rn = none →
      createM2MRelModelInfo R rn m1 m2 =
          Except.ok (ModelCollection.mk (R.models ++ [m2mJunctionModel rn m1 m2]),
            m2mJunctionModel rn m1 m2,
            some (m2mFKField rn m1), some (m2mFKField rn m2)) ∧
        (m2mJunctionModel rn m1 m2).name = rn ∧
        (m2mJunctionModel rn m1 m2).options = Many2ManyLinkModel ∧
        (m2mJunctionModel rn m1 m2).fields.registryByName =
          [(m1, m2mFKField rn m1), (m2, m2mFKField rn m2)] ∧
        (m2mFKField rn m1).name = m1 ∧ (m2mFKField rn m1).relatedModelName = m1 ∧
        (m2mFKField rn m1).fieldType = FieldType.many2one ∧
        (m2mFKField rn m1).required = true ∧ (m2mFKField rn m1).index = true ∧
        (m2mFKField rn m1).noCopy = true ∧
        (m2mFKField rn m1).onDelete = OnDeleteAction.cascade ∧
        (m2mFKField rn m2).name = m2 ∧ (m2mFKField rn m2).relatedModelName = m2 ∧
        (m2mFKField rn m2).fieldType = FieldType.many2one ∧
        (m2mFKField rn m2).required = true ∧ (m2mFKField rn m2).index = true ∧
        (m2mFKField rn m2).noCopy = true ∧
        (m2mFKField rn m2).onDelete = OnDeleteAction.cascade)
    ∧ (∀ M, R.Get rn = some M → (M.fields.registryByName.map Prod.fst).Nodup →
        createM2MRelModelInfo R rn m1 m2 =
          Except.ok (R, M, lookupA M.fields.registryByName m1,
            lookupA M.fields.registryByName m2)) := by
  constructor
  · intro hget
    refine ⟨?_, rfl, rfl, ?_, rfl, rfl, rfl, rfl, rfl, rfl, rfl, rfl, rfl, rfl,
      rfl, rfl, rfl, rfl⟩
    · have hadd1 : newFieldsCollection.add (m2mFKField rn m1) =
          Except.ok (FieldsCollection.mk [(m1, m2mFKField rn m1)]
            [((m2mFKField rn m1).json, m2mFKField rn m1)] [] [] [],
            m2mFKField rn m1) := rfl
      have hadd2 : (FieldsCollection.mk [(m1, m2mFKField rn m1)]
            [((m2mFKField rn m1).json, m2mFKField rn m1)] [] [] []).add
            (m2mFKField rn m2) =
          Except.ok ((m2mJunctionModel rn m1 m2).fields, m2mFKField rn m2) := by
        rw [add_eq_of_lookup_none
          (show lookupA [(m1, m2mFKField rn m1)] m2 = none by simp [lookupA, hne])]
        rfl
      unfold createM2MRelModelInfo
      rw [hget]
      dsimp only
      rw [hadd1]
      dsimp only
      rw [hadd2]
      rfl
    · simp [m2mJunctionModel, insertA, hne]
  · intro M hget hnodup
    unfold createM2MRelModelInfo
    rw [hget]
    dsimp only
    rw [scanM2MFields_nodup hne M.fields.registryByName none none hnodup,
      optionElim_none_some, optionElim_none_some]

/-- C6 witness: creating the junction model between models A and B in an
empty registry. -/
theorem createM2M_spec_witness :
    createM2MRelModelInfo (ModelCollection.mk []) "Rel" "A" "B" =
      Except.ok (ModelCollection.mk ([] ++ [m2mJunctionModel "Rel" "A" "B"]),
        m2mJunctionModel "Rel" "A" "B",
        some (m2mFKField "Rel" "A"), some (m2mFKField "Rel" "B")) :=
  ((createM2M_spec (ModelCollection.mk []) "Rel" "A" "B" (by decide)).1 rfl).1

/-- C4: when checkComputeMethodsSignature succeeds at bootstrap, every
computed field of every model has a compute method that takes no
argument beyond its receiver and returns a first value implementing
FieldMapper; a stored computed field additionally has exactly a second
return value of the FieldNamer slice type.  Contrapositively, a stored
computed field whose method returns one value, any method with more
than two return values or a wrongly typed second return value makes the
bootstrap check fail (panic) rather than being caught at call time. -/
theorem computeSignatureChecked (R : ModelCollection)
    (h : checkComputeMethodsSignature R = Except.ok ()) :
    ∀ mi ∈ R.models,
      (∀ fi ∈ mi.fields.computedFields, ∃ m, mi.methodsGet fi.compute = some m ∧
        m.numIn = 1 ∧
        ((∃ t1, m.outTypes = [t1] ∧ t1.implementsFieldMapper = true) ∨
         (∃ t1 t2, m.outTypes = [t1, t2] ∧ t1.implementsFieldMapper = true ∧
           t2.isSliceFieldNamer = true)))
      ∧ (∀ fi ∈ mi.fields.computedStoredFields, ∃ m, mi.methodsGet fi.compute = some m ∧
          m.numIn = 1 ∧
          ∃ t1 t2, m.outTypes = [t1, t2] ∧ t1.implementsFieldMapper = true ∧
            t2.isSliceFieldNamer = true) := by
  intro mi hmi
  obtain ⟨h1, h2⟩ := checkModelsMeth_ok h mi hmi
  constructor
  · intro fi hfi
    obtain ⟨m, hm, hc⟩ := checkFieldsMeth_ok h1 fi hfi
    obtain ⟨hin, hout⟩ := (checkMethType_none_iff m false).mp hc
    refine ⟨m, hm, hin, ?_⟩
    rcases hout with ⟨_, t1, hts, himpl⟩ | hout2
    · exact Or.inl ⟨t1, hts, himpl⟩
    · exact Or.inr hout2
  · intro fi hfi
    obtain ⟨m, hm, hc⟩ := checkFieldsMeth_ok h2 fi hfi
    obtain ⟨hin, hout⟩ := (checkMethType_none_iff m true).mp hc
    refine ⟨m, hm, hin, ?_⟩
    rcases hout with ⟨hfalse, _⟩ | hout2
    · exact Bool.noConfusion hfalse
    · exact hout2

/-- C4 witness: the signature check succeeds on the fixture registry and
yields the valid shape of the ComputeDisplayName method of the user
model. -/
theorem computeSignatureChecked_witness :
    (∀ fi ∈ userModel.fields.computedFields, ∃ m,
      userModel.methodsGet fi.compute = some m ∧ m.numIn = 1 ∧
      ((∃ t1, m.outTypes = [t1] ∧ t1.implementsFieldMapper = true) ∨
       (∃ t1 t2, m.outTypes = [t1, t2] ∧ t1.implementsFieldMapper = true ∧
         t2.isSliceFieldNamer = true)))
    ∧ (∀ fi ∈ userModel.fields.computedStoredFields, ∃ m,
        userModel.methodsGet fi.compute = some m ∧ m.numIn = 1 ∧
        ∃ t1 t2, m.outTypes = [t1, t2] ∧ t1.implementsFieldMapper = true ∧
          t2.isSliceFieldNamer = true) :=
  computeSignatureChecked R0 (by decide) userModel (by decide)

/-- C9 witness: adding the stored computed DisplayName field to an empty
collection registers it under its name and its JSON name. -/
theorem add_spec_witness :
    ∃ fc', newFieldsCollection.add displayNameField = Except.ok (fc', displayNameField) ∧
      lookupA fc'.registryByName displayNameField.name = some displayNameField ∧
      lookupA fc'.registryByJSON displayNameField.json = some displayNameField :=
  (add_spec newFieldsCollection displayNameField).2 (by decide) displayNameField (by decide)

end Yep
